import Mathlib

/-!
Verification of the juju uniter relation lifecycle resolver and of
`Unit.State`.

The relation resolver itself (RelationResolver / RelationStateTracker /
Relationer / CreatedRelationResolver) is exercised by the repository only
through its test suite (`worker/uniter/relation` tests); the resolver's own
source is not part of the source tree given here.  The definitions below are
therefore modelled from the specification (sections 3, 4.2-4.5 of the spec),
with behaviour pinned down by the repository's tests wherever the two
disagree; each such deviation is recorded at the definition it affects.

`Unit.State` (state/unit_state.go) is present in the source tree and is
embedded directly from it at the end of the definitions section.

Conventions of the embedding:
- Go maps become association lists (`List (key × value)`); iteration order
  of map ranges is made deterministic by explicit sorting, mirroring the
  `sort.Strings` / `sort.Ints` calls the resolver performs.
- Go `int64` change versions become `Int`.
- fallible operations return `Option` / `Except`.
-/

set_option autoImplicit false

/-- Life of a unit or relation: enumeration Alive / Dying / Dead
(spec section 3). -/
inductive Life
  | alive
  | dying
  | dead
  deriving DecidableEq, Repr

/-- Remote per-relation snapshot delivered by the watcher
(`remotestate.RelationSnapshot`): life, suspended flag, unit member change
versions and application member change versions (spec section 3). -/
structure RelationSnapshot where
  life : Life := .alive
  suspended : Bool := false
  members : List (String × Int) := []
  applicationMembers : List (String × Int) := []
  deriving DecidableEq, Repr

/-- Remote snapshot for the whole unit (`remotestate.Snapshot`): the unit's
own life and the per-relation snapshots keyed by relation id. -/
structure Snapshot where
  life : Life := .alive
  relations : List (Nat × RelationSnapshot) := []
  deriving DecidableEq, Repr

/-- One on-disk state file for a (relation, member) pair: the recorded
change version and the changed-pending flag (spec section 4.1). -/
structure FileRec where
  changeVersion : Int
  changedPending : Bool
  deriving DecidableEq, Repr

/-- Association-list lookup (first match wins), standing in for Go map
indexing. -/
def alook {κ α : Type} [DecidableEq κ] : List (κ × α) → κ → Option α
  | [], _ => none
  | (k, v) :: t, k' => if k = k' then some v else alook t k'

/-- Association-list insert-or-overwrite, standing in for Go map assignment. -/
def aset {κ α : Type} [DecidableEq κ] : List (κ × α) → κ → α → List (κ × α)
  | [], k, v => [(k, v)]
  | (k', v') :: t, k, v => if k' = k then (k, v) :: t else (k', v') :: aset t k v

/-- Association-list delete, standing in for Go `delete`. -/
def adel {κ α : Type} [DecidableEq κ] : List (κ × α) → κ → List (κ × α)
  | [], _ => []
  | (k', v') :: t, k => if k' = k then adel t k else (k', v') :: adel t k

/-- Apply a function to the value stored at one key, leaving the rest of the
association list untouched. -/
def aupdate {κ α : Type} [DecidableEq κ] : List (κ × α) → κ → (α → α) → List (κ × α)
  | [], _, _ => []
  | (k', v') :: t, k, f => if k' = k then (k, f v') :: t else (k', v') :: aupdate t k f

/-- First `some` produced by `f` along the list, standing in for the
resolver's first-match scan over candidate relations / members. -/
def firstSome {α β : Type} (f : α → Option β) : List α → Option β
  | [] => none
  | x :: t =>
    match f x with
    | some b => some b
    | none => firstSome f t

/-- Byte-wise (character-wise) ordering on strings, used for the
deterministic lexicographic tie-breaks of the resolver (`sort.Strings`). -/
def charListLe : List Char → List Char → Bool
  | [], _ => true
  | _ :: _, [] => false
  | a :: as, b :: bs => if a = b then charListLe as bs else decide (a < b)

/-- String comparison used for sorting member names. -/
def strLe (a b : String) : Bool := charListLe a.toList b.toList

/-- Insertion into a lexicographically sorted list of strings. -/
def insortStr (s : String) : List String → List String
  | [] => [s]
  | x :: t => if strLe s x then s :: x :: t else x :: insortStr s t

/-- Insertion sort of strings, the model of `sort.Strings`. -/
def sortStrs (l : List String) : List String := l.foldr insortStr []

/-- Insertion into an ascending list of naturals. -/
def insortNat (n : Nat) : List Nat → List Nat
  | [] => [n]
  | x :: t => if n ≤ x then n :: x :: t else x :: insortNat n t

/-- Insertion sort of relation ids, the model of `sort.Ints`. -/
def sortNats (l : List Nat) : List Nat := l.foldr insortNat []

/-- Deduplication of a string list (keeps one occurrence of each element). -/
def dedupStr : List String → List String
  | [] => []
  | x :: t => if x ∈ t then dedupStr t else x :: dedupStr t

/-- Deduplication of a Nat list (keeps one occurrence of each element). -/
def dedupNat : List Nat → List Nat
  | [] => []
  | x :: t => if x ∈ t then dedupNat t else x :: dedupNat t

/-- Sorted union of the local and remote member-name sets: the resolver's
`allUnitNames` set, iterated in lexicographic order. -/
def unionNames (l1 l2 : List String) : List String := sortStrs (dedupStr (l1 ++ l2))

/-- Application name of a unit name: the part before the `/`
(`names.UnitApplication`). -/
def unitApp (u : String) : String := String.mk (u.toList.takeWhile fun c => c ≠ '/')

/- Basic lemmas about the association-list and sorting helpers. -/

theorem alook_eq_some_mem {κ α : Type} [DecidableEq κ] {l : List (κ × α)} {k : κ}
    {v : α} (h : alook l k = some v) : (k, v) ∈ l := by
  induction l with
  | nil => simp [alook] at h
  | cons kv t ih =>
    obtain ⟨k', v'⟩ := kv
    by_cases hk : k' = k
    · subst hk
      simp [alook] at h
      simp [h]
    · simp [alook, hk] at h
      exact List.mem_cons_of_mem _ (ih h)

theorem alook_isSome_of_mem_fst {κ α : Type} [DecidableEq κ] {l : List (κ × α)}
    {k : κ} (h : k ∈ l.map Prod.fst) : (alook l k).isSome := by
  induction l with
  | nil => simp at h
  | cons kv t ih =>
    obtain ⟨k', v'⟩ := kv
    by_cases hk : k' = k
    · simp [alook, hk]
    · rw [List.map_cons] at h
      have h' : k ∈ t.map Prod.fst := by
        rcases List.mem_cons.mp h with h0 | h0
        · exact absurd h0.symm hk
        · exact h0
      simpa [alook, hk] using ih h'

theorem mem_fst_of_alook_isSome {κ α : Type} [DecidableEq κ] {l : List (κ × α)}
    {k : κ} (h : (alook l k).isSome) : k ∈ l.map Prod.fst := by
  induction l with
  | nil => simp [alook] at h
  | cons kv t ih =>
    obtain ⟨k', v'⟩ := kv
    by_cases hk : k' = k
    · simp [hk]
    · rw [alook, if_neg hk] at h
      rw [List.map_cons]
      exact List.mem_cons_of_mem _ (ih h)

theorem alook_aset_self {κ α : Type} [DecidableEq κ] (l : List (κ × α)) (k : κ)
    (v : α) : alook (aset l k v) k = some v := by
  induction l with
  | nil => simp [aset, alook]
  | cons kv t ih =>
    obtain ⟨k', v'⟩ := kv
    by_cases hk : k' = k
    · simp [aset, hk, alook]
    · simp [aset, hk, alook, ih]

theorem alook_adel_self {κ α : Type} [DecidableEq κ] (l : List (κ × α)) (k : κ) :
    alook (adel l k) k = none := by
  induction l with
  | nil => simp [adel, alook]
  | cons kv t ih =>
    obtain ⟨k', v'⟩ := kv
    by_cases hk : k' = k
    · simp [adel, hk, ih]
    · simp [adel, hk, alook, ih]

theorem alook_aupdate_self {κ α : Type} [DecidableEq κ] {l : List (κ × α)} {k : κ}
    {v : α} (f : α → α) (h : alook l k = some v) :
    alook (aupdate l k f) k = some (f v) := by
  induction l with
  | nil => simp [alook] at h
  | cons kv t ih =>
    obtain ⟨k', v'⟩ := kv
    by_cases hk : k' = k
    · subst hk
      simp [alook] at h
      subst h
      simp [aupdate, alook]
    · simp only [alook, if_neg hk] at h
      simpa [aupdate, alook, hk] using ih h

theorem firstSome_eq_none_iff {α β : Type} (f : α → Option β) (l : List α) :
    firstSome f l = none ↔ ∀ a ∈ l, f a = none := by
  induction l with
  | nil => simp [firstSome]
  | cons x t ih =>
    cases hx : f x with
    | some b => simp [firstSome, hx]
    | none => simp [firstSome, hx, ih]

theorem firstSome_some_exists {α β : Type} {f : α → Option β} {l : List α} {b : β}
    (h : firstSome f l = some b) : ∃ a ∈ l, f a = some b := by
  induction l with
  | nil => simp [firstSome] at h
  | cons x t ih =>
    cases hx : f x with
    | some b' =>
      simp [firstSome, hx] at h
      exact ⟨x, List.mem_cons_self x t, by simp [hx, h]⟩
    | none =>
      simp [firstSome, hx] at h
      obtain ⟨a, ha, hfa⟩ := ih h
      exact ⟨a, List.mem_cons_of_mem _ ha, hfa⟩

theorem firstSome_isSome_of_exists {α β : Type} {f : α → Option β} {l : List α}
    {a : α} (ha : a ∈ l) (h : (f a).isSome) : (firstSome f l).isSome := by
  induction l with
  | nil => simp at ha
  | cons x t ih =>
    rcases List.mem_cons.mp ha with rfl | ha'
    · cases hx : f a with
      | some b => simp [firstSome, hx]
      | none => rw [hx] at h; simp at h
    · cases hx : f x with
      | some b => simp [firstSome, hx]
      | none => simpa [firstSome, hx] using ih ha'

theorem mem_insortStr {s : String} {a : String} {l : List String} :
    a ∈ insortStr s l ↔ a = s ∨ a ∈ l := by
  induction l with
  | nil => simp [insortStr]
  | cons x t ih =>
    by_cases hle : strLe s x
    · simp [insortStr, hle]
    · simp [insortStr, hle, ih]
      tauto

theorem mem_sortStrs {a : String} {l : List String} : a ∈ sortStrs l ↔ a ∈ l := by
  induction l with
  | nil => simp [sortStrs]
  | cons x t ih =>
    simp only [sortStrs, List.foldr_cons] at *
    rw [mem_insortStr, ih]
    simp

theorem mem_dedupStr {a : String} {l : List String} : a ∈ dedupStr l ↔ a ∈ l := by
  induction l with
  | nil => simp [dedupStr]
  | cons x t ih =>
    by_cases hx : x ∈ t
    · simp [dedupStr, hx, ih]
      intro h
      subst h
      exact hx
    · simp [dedupStr, hx, ih]

theorem mem_unionNames {a : String} {l1 l2 : List String} :
    a ∈ unionNames l1 l2 ↔ a ∈ l1 ∨ a ∈ l2 := by
  simp [unionNames, mem_sortStrs, mem_dedupStr]

theorem mem_insortNat {n a : Nat} {l : List Nat} :
    a ∈ insortNat n l ↔ a = n ∨ a ∈ l := by
  induction l with
  | nil => simp [insortNat]
  | cons x t ih =>
    by_cases hle : n ≤ x
    · simp [insortNat, hle]
    · simp [insortNat, hle, ih]
      tauto

theorem mem_sortNats {a : Nat} {l : List Nat} : a ∈ sortNats l ↔ a ∈ l := by
  induction l with
  | nil => simp [sortNats]
  | cons x t ih =>
    simp only [sortNats, List.foldr_cons] at *
    rw [mem_insortNat, ih]
    simp

theorem mem_dedupNat {a : Nat} {l : List Nat} : a ∈ dedupNat l ↔ a ∈ l := by
  induction l with
  | nil => simp [dedupNat]
  | cons x t ih =>
    by_cases hx : x ∈ t
    · simp [dedupNat, hx, ih]
      intro h
      subst h
      exact hx
    · simp [dedupNat, hx, ih]

theorem pairwise_insortNat {n : Nat} {l : List Nat}
    (h : l.Pairwise (· ≤ ·)) : (insortNat n l).Pairwise (· ≤ ·) := by
  induction l with
  | nil => simp [insortNat]
  | cons x t ih =>
    rcases List.pairwise_cons.mp h with ⟨hx, ht⟩
    by_cases hle : n ≤ x
    · rw [insortNat, if_pos hle]
      refine List.pairwise_cons.mpr ⟨?_, h⟩
      intro b hb
      rcases List.mem_cons.mp hb with rfl | hb'
      · exact hle
      · exact le_trans hle (hx b hb')
    · rw [insortNat, if_neg hle]
      refine List.pairwise_cons.mpr ⟨?_, ih ht⟩
      intro b hb
      rcases mem_insortNat.mp hb with rfl | hb'
      · exact Nat.le_of_lt (Nat.lt_of_not_le hle)
      · exact hx b hb'

theorem pairwise_sortNats (l : List Nat) : (sortNats l).Pairwise (· ≤ ·) := by
  induction l with
  | nil => simp [sortNats]
  | cons x t ih =>
    simpa [sortNats] using pairwise_insortNat (by simpa [sortNats] using ih)

theorem firstSome_sorted_first {β : Type} {f : Nat → Option β} {l : List Nat}
    {a : Nat} {b : β} (hs : l.Pairwise (· ≤ ·)) (ha : a ∈ l)
    (hnone : ∀ x ∈ l, x < a → f x = none) (hfa : f a = some b) :
    firstSome f l = some b := by
  induction l with
  | nil => simp at ha
  | cons x t ih =>
    rcases List.pairwise_cons.mp hs with ⟨hx, ht⟩
    by_cases hlt : x < a
    · have hfx : f x = none := hnone x (List.mem_cons_self x t) hlt
      have ha' : a ∈ t := by
        rcases List.mem_cons.mp ha with rfl | h
        · exact absurd hlt (lt_irrefl a)
        · exact h
      simp only [firstSome, hfx]
      exact ih ht ha' (fun y hy hylt => hnone y (List.mem_cons_of_mem _ hy) hylt)
    · have hxa : x = a := by
        rcases List.mem_cons.mp ha with rfl | h
        · rfl
        · exact le_antisymm (hx a h) (Nat.le_of_not_lt hlt)
      subst hxa
      simp [firstSome, hfa]

/-!
The relation state tracker and resolver, modelled from spec sections 3-4.5.

Modelled from the spec: the Go sources of `RelationStateTracker`,
`Relationer`, `RelationResolver` and `CreatedRelationResolver` are absent
from the source tree (only their test suite is present), so the definitions
in this section are reconstructed from the specification, with the following
behaviours pinned down by the repository's tests where they override a
literal reading of the spec's hook ladder:
- a pending `relation-changed` (recorded by the `changedPending` state set at
  joined-commit) is emitted before the departed/broken checks
  (`TestHookRelationChanged`, `TestHookRelationChangedSuspended`);
- `relation-broken` is only emitted while the relation's state directory
  still exists; once the directory is gone the dying/suspended relation
  yields no operation (`TestHookRelationBrokenOnlyOnce`);
- a subordinate destroys itself not only when the relation to its principal
  is Dying but also when its own life is Dying
  (`TestPrincipalDyingDestroysSubordinates`);
- `DestroyAllSubordinates` is driven purely by the unit's own life
  (`TestPrincipalDyingDestroysSubordinates`, where the unit is itself a
  subordinate).
-/

/-- The hook kinds the resolver can select (spec section 2). -/
inductive HookKind
  | created
  | joined
  | changed
  | departed
  | broken
  deriving DecidableEq, Repr

/-- A selected hook (`hook.Info`): kind, relation id, remote unit (empty for
relation-level and application-level hooks), remote application and change
version. -/
structure HookInfo where
  kind : HookKind
  relationId : Nat
  remoteUnit : String
  remoteApp : String
  changeVersion : Int
  deriving DecidableEq, Repr

/-- Per-relation state held by a `Relationer` (spec section 4.2): identity
facts (implicitness, remote application), the relation's last known life and
suspended flag, scope and created markers, the in-memory mirror of the local
relation state (`members`, `applicationMembers`, `changedPending`) and the
on-disk state (`files`, `dirExists`).  `changedPending` is the unit name
whose `relation-changed` must follow its `relation-joined`; the empty string
means no change is pending. -/
structure Relationer where
  isImplicit : Bool
  remoteApp : String
  life : Life
  suspended : Bool
  created : Bool
  inScope : Bool
  members : List (String × Int)
  appMembers : List (String × Int)
  changedPending : String
  files : List (String × FileRec)
  dirExists : Bool
  deriving DecidableEq, Repr

/-- The `RelationStateTracker` (spec section 4.3): the unit's name, its
principal unit (present exactly when this unit is a subordinate), the active
relationers keyed by relation id, and the broken-emitted markers of spec
invariant L4 for relations whose `relation-broken` has been committed. -/
structure Tracker where
  unitName : String
  principal : Option String
  active : List (Nat × Relationer)
  broken : List Nat
  deriving DecidableEq, Repr

/-- The controller-side record fetched through `RelationById` / `Relation`
when the tracker first learns of a relation id: whether the relation is
implicit (reserved juju-info interface) and the remote application name.
`none` models a not-found answer, which the tracker treats as an already
broken relation (spec section 7). -/
structure RelationRecord where
  isImplicit : Bool
  remoteApp : String
  deriving DecidableEq, Repr

/-- Update an already tracked relationer from the remote snapshot: life and
suspended are refreshed; a relation absent from the snapshot is marked Dying
(spec section 4.3, SynchronizeScopes). -/
def updateRelationer (rel : Relationer) : Option RelationSnapshot → Relationer
  | some snap => { rel with life := snap.life, suspended := snap.suspended }
  | none => { rel with life := .dying }

/-- A fresh relationer for a relation id first observed in the snapshot:
identity facts come from the controller record; joining enters scope and
ensures the state directory, and `relation-created` is recorded as handled
for relations the tracker joined itself (mirrors the tracker recording
created for relations already in scope at initialization). -/
def newRelationer (rec : RelationRecord) (snap : RelationSnapshot) : Relationer :=
  { isImplicit := rec.isImplicit
    remoteApp := rec.remoteApp
    life := snap.life
    suspended := snap.suspended
    created := true
    inScope := true
    members := []
    appMembers := []
    changedPending := ""
    files := []
    dirExists := true }

/-- Whether the subordinate's relation to its principal has become Dying in
this snapshot: some Dying relation of the snapshot has a member unit
belonging to the principal's application. -/
def principalRelationDying (principal : String) (remote : Snapshot) : Bool :=
  remote.relations.any fun idSnap =>
    idSnap.2.life = Life.dying &&
      idSnap.2.members.any fun uv => unitApp uv.1 = unitApp principal

/-- SynchronizeScopes (spec section 4.3): refresh life/suspended of tracked
relations (absent ones become Dying), create relationers for newly observed
Alive relations whose controller record resolves (skipping ids already
terminal per invariant L4), and report whether the unit destroyed itself.
A subordinate calls `Destroy` on itself when the relation to its principal
has become Dying, and also when its own life is Dying
(`TestPrincipalDyingDestroysSubordinates`). The Bool result records whether
the `Destroy` controller call was made. -/
def synchronizeScopes (ctrl : Nat → Option RelationRecord) (t : Tracker)
    (remote : Snapshot) : Tracker × Bool :=
  let updated := t.active.map fun idRel =>
    (idRel.1, updateRelationer idRel.2 (alook remote.relations idRel.1))
  let newIds := (sortNats (remote.relations.map Prod.fst)).filter fun id =>
    !(alook t.active id).isSome && !(t.broken.contains id)
  let news := newIds.filterMap fun id =>
    match alook remote.relations id, ctrl id with
    | some snap, some rec =>
      if snap.life = Life.alive && !snap.suspended then
        some (id, newRelationer rec snap)
      else
        none
    | _, _ => none
  let destroy :=
    match t.principal with
    | none => false
    | some p => remote.life = Life.dying || principalRelationDying p remote
  ({ t with active := updated ++ news }, destroy)

/-- The change version reported with a pending `relation-changed`: the
member's version from the remote snapshot when present, otherwise the
locally recorded version (`TestHookRelationChangedApplication` pins the
locally recorded version as surviving a pending changed emitted while the
member is absent from the snapshot). -/
def pendingChangeVersion (rel : Relationer) (remoteMembers : List (String × Int)) :
    Int :=
  (alook remoteMembers rel.changedPending).getD
    ((alook rel.members rel.changedPending).getD 0)

/-- Departed candidate check for one member name (spec ladder rule b): the
member is locally known and is gone from the remote members, or the whole
relation is ending (Dying or suspended). -/
def departedHook (id : Nat) (rel : Relationer) (remoteMembers : List (String × Int))
    (remoteBroken : Bool) (n : String) : Option HookInfo :=
  match alook rel.members n with
  | none => none
  | some lv =>
    if remoteBroken || !(alook remoteMembers n).isSome then
      some { kind := .departed, relationId := id, remoteUnit := n,
             remoteApp := unitApp n, changeVersion := lv }
    else
      none

/-- Joined candidate check for one member name (spec ladder rule c): the
member is in the remote members but not locally known. -/
def joinedHook (id : Nat) (rel : Relationer) (remoteMembers : List (String × Int))
    (n : String) : Option HookInfo :=
  match alook remoteMembers n with
  | none => none
  | some rv =>
    if (alook rel.members n).isSome then
      none
    else
      some { kind := .joined, relationId := id, remoteUnit := n,
             remoteApp := unitApp n, changeVersion := rv }

/-- Unit-level changed candidate check for one member name (spec ladder rule
d): the member is known on both sides and the versions differ; any
inequality fires, including a strictly smaller remote version. -/
def changedHook (id : Nat) (rel : Relationer) (remoteMembers : List (String × Int))
    (n : String) : Option HookInfo :=
  match alook rel.members n, alook remoteMembers n with
  | some lv, some rv =>
    if lv ≠ rv then
      some { kind := .changed, relationId := id, remoteUnit := n,
             remoteApp := unitApp n, changeVersion := rv }
    else
      none
  | _, _ => none

/-- Application-level changed candidate check (spec ladder rule e): the
application's remote version differs from the locally recorded one (absent
records count as version 0, as for a Go map read). -/
def appChangedHook (id : Nat) (rel : Relationer)
    (remoteApps : List (String × Int)) (a : String) : Option HookInfo :=
  match alook remoteApps a with
  | none => none
  | some rv =>
    if (alook rel.appMembers a).getD 0 ≠ rv then
      some { kind := .changed, relationId := id, remoteUnit := "",
             remoteApp := a, changeVersion := rv }
    else
      none

/-- The hook ladder for one relation (spec section 4.4 step 3, with the
test-pinned deviations listed at the head of this section): a pending
changed fires first; then departed candidates in lexicographic member
order; then broken (only while the state directory exists); then joined;
then unit-level changed; finally application-level changed.  Implicit
relations never generate hooks. -/
def remoteMembersOf (snap? : Option RelationSnapshot) : List (String × Int) :=
  (snap?.map RelationSnapshot.members).getD []

/-- Application members of an optional snapshot (empty when the relation is
absent from the snapshot). -/
def remoteAppsOf (snap? : Option RelationSnapshot) : List (String × Int) :=
  (snap?.map RelationSnapshot.applicationMembers).getD []

/-- Whether the relation is ending from the remote point of view (spec
ladder rule a precondition): absent from the snapshot, Dying, or
suspended. -/
def remoteBrokenOf : Option RelationSnapshot → Bool
  | none => true
  | some snap => snap.life = Life.dying || snap.suspended

/-- The pending `relation-changed` hook recorded by a joined-commit. -/
def pendingHook (id : Nat) (rel : Relationer)
    (remoteMembers : List (String × Int)) : HookInfo :=
  { kind := .changed, relationId := id, remoteUnit := rel.changedPending,
    remoteApp := unitApp rel.changedPending,
    changeVersion := pendingChangeVersion rel remoteMembers }

/-- The `relation-broken` hook for one relation. -/
def brokenHookInfo (id : Nat) (rel : Relationer) : HookInfo :=
  { kind := .broken, relationId := id, remoteUnit := "",
    remoteApp := rel.remoteApp, changeVersion := 0 }

/-- The hook ladder stages below the pending-changed check, over the already
extracted remote members, remote-broken flag and remote application
members: departed candidates in lexicographic member order; then broken
(only while the state directory exists); then joined; then unit-level
changed; finally application-level changed. -/
def ladder (id : Nat) (rel : Relationer) (rm : List (String × Int)) (rb : Bool)
    (ra : List (String × Int)) : Option HookInfo :=
  match firstSome (departedHook id rel rm rb)
      (unionNames (rel.members.map Prod.fst) (rm.map Prod.fst)) with
  | some h => some h
  | none =>
    if rb then
      if rel.dirExists then some (brokenHookInfo id rel) else none
    else
      match firstSome (joinedHook id rel rm)
          (unionNames (rel.members.map Prod.fst) (rm.map Prod.fst)) with
      | some h => some h
      | none =>
        match firstSome (changedHook id rel rm)
            (unionNames (rel.members.map Prod.fst) (rm.map Prod.fst)) with
        | some h => some h
        | none => firstSome (appChangedHook id rel ra) (sortStrs (ra.map Prod.fst))

/-- The hook ladder for one relation (spec section 4.4 step 3, with the
test-pinned deviations listed at the head of this section): implicit
relations never generate hooks; a pending changed fires first; the
remaining stages are `ladder`. -/
def nextHookForRelation (id : Nat) (rel : Relationer)
    (snap? : Option RelationSnapshot) : Option HookInfo :=
  if rel.isImplicit then none
  else if rel.changedPending ≠ "" then
    some (pendingHook id rel (remoteMembersOf snap?))
  else
    ladder id rel (remoteMembersOf snap?) (remoteBrokenOf snap?) (remoteAppsOf snap?)

/-- The candidate relation ids of one resolver pass, in ascending order:
ids of the snapshot together with the tracked ids (so that relations that
vanished from the snapshot can still be broken). -/
def loopIds (t : Tracker) (remote : Snapshot) : List Nat :=
  sortNats (dedupNat (remote.relations.map Prod.fst ++ t.active.map Prod.fst))

/-- One step of the resolver's scan: relations with a broken-emitted marker
are terminal and skipped (spec section 4.4 step 2 and invariant L4); other
ids dispatch to the hook ladder of their relationer. -/
def relationHookStep (t : Tracker) (remote : Snapshot) (id : Nat) : Option HookInfo :=
  if id ∈ t.broken then none
  else
    match alook t.active id with
    | none => none
    | some rel => nextHookForRelation id rel (alook remote.relations id)

/-- The outcome of one `NextOp` invocation of the RelationResolver:
whether `DestroyAllSubordinates` was invoked, whether the unit destroyed
itself during scope synchronization, the synchronized tracker, and the
selected hook (`none` models `ErrNoOperation`). -/
structure NextOpResult where
  destroyAllSubordinates : Bool
  destroy : Bool
  tracker : Tracker
  op : Option HookInfo
  deriving DecidableEq, Repr

/-- NextOp of the RelationResolver (spec section 4.4): destroy subordinates
when the unit's own life is Dying, synchronize scopes, then scan candidate
relations in ascending id order and return the first hook the ladder
yields. -/
def nextOp (ctrl : Nat → Option RelationRecord) (t : Tracker)
    (remote : Snapshot) : NextOpResult :=
  let dAll := remote.life = Life.dying
  let sync := synchronizeScopes ctrl t remote
  { destroyAllSubordinates := dAll
    destroy := sync.2
    tracker := sync.1
    op := firstSome (relationHookStep sync.1 remote) (loopIds sync.1 remote) }

/-- CommitHook on one relationer (spec section 4.2.1): joined writes the
member file with the changed-pending flag and records the pending changed;
changed clears it (an empty remote unit addresses the application-level
record instead); departed removes the member file; created touches only the
created marker. -/
def commitRelationer (hi : HookInfo) (rel : Relationer) : Relationer :=
  match hi.kind with
  | .created => { rel with created := true }
  | .joined =>
    { rel with
        members := aset rel.members hi.remoteUnit hi.changeVersion
        changedPending := hi.remoteUnit
        files := aset rel.files hi.remoteUnit
          { changeVersion := hi.changeVersion, changedPending := true }
        dirExists := true }
  | .changed =>
    if hi.remoteUnit = "" then
      { rel with
          appMembers := aset rel.appMembers hi.remoteApp hi.changeVersion
          changedPending := ""
          files := aset rel.files hi.remoteApp
            { changeVersion := hi.changeVersion, changedPending := false }
          dirExists := true }
    else
      { rel with
          members := aset rel.members hi.remoteUnit hi.changeVersion
          changedPending := ""
          files := aset rel.files hi.remoteUnit
            { changeVersion := hi.changeVersion, changedPending := false }
          dirExists := true }
  | .departed =>
    { rel with
        members := adel rel.members hi.remoteUnit
        files := adel rel.files hi.remoteUnit }
  | .broken => rel

/-- CommitHook on the tracker (spec sections 4.2.1 and 4.3): a broken commit
removes the relation's state directory, drops the relationer and records the
broken-emitted marker (invariants L3 and L4); every other hook kind updates
the owning relationer in place. -/
def commitHook (t : Tracker) (hi : HookInfo) : Tracker :=
  if hi.kind = HookKind.broken then
    { t with
        active := adel t.active hi.relationId
        broken := hi.relationId :: t.broken }
  else
    { t with active := aupdate t.active hi.relationId (commitRelationer hi) }

/-- External removal of the whole relations state directory, as performed by
`TestHookRelationBrokenOnlyOnce`: every relation's files and directory are
gone from disk while the in-memory mirrors survive. -/
def removeAllDisk (t : Tracker) : Tracker :=
  { t with
      active := t.active.map fun idRel =>
        (idRel.1, { idRel.2 with files := [], dirExists := false }) }

/-- On-disk state file of a (relation, member) pair as seen through the
tracker (spec section 4.1). -/
def stateFile (t : Tracker) (r : Nat) (m : String) : Option FileRec :=
  (alook t.active r).bind fun rel => alook rel.files m

/-- NextOp of the CreatedRelationResolver (spec section 4.5): nothing before
the charm is installed; otherwise synchronize scopes and emit
`relation-created` for the first snapshot relation id (ascending) that is
tracked, not implicit, not already recorded as created and not yet in
scope.  `none` models `ErrNoOperation`. -/
def createdNextOp (ctrl : Nat → Option RelationRecord) (installed : Bool)
    (t : Tracker) (remote : Snapshot) : Option HookInfo :=
  if !installed then none
  else
    let t1 := (synchronizeScopes ctrl t remote).1
    firstSome
      (fun id =>
        match alook t1.active id with
        | none => none
        | some rel =>
          if rel.isImplicit || rel.created || rel.inScope then none
          else
            some { kind := .created, relationId := id, remoteUnit := "",
                   remoteApp := rel.remoteApp, changeVersion := 0 })
      (sortNats (remote.relations.map Prod.fst))

/-- One step the agent can take between resolver passes: a scope
synchronization against some snapshot, the commit of some hook, or an
external wipe of the relations directory. -/
inductive AgentStep (ctrl : Nat → Option RelationRecord) : Tracker → Tracker → Prop
  | sync (t : Tracker) (remote : Snapshot) :
      AgentStep ctrl t (synchronizeScopes ctrl t remote).1
  | commit (t : Tracker) (hi : HookInfo) : AgentStep ctrl t (commitHook t hi)
  | wipe (t : Tracker) : AgentStep ctrl t (removeAllDisk t)

/-- Reachability along agent steps. -/
def ReachableFrom (ctrl : Nat → Option RelationRecord) : Tracker → Tracker → Prop :=
  Relation.ReflTransGen (AgentStep ctrl)

/-!
`Unit.State` from state/unit_state.go, embedded directly from the source.
The mongo collection read becomes an `Option unitStateDoc` argument (`none`
models `mgo.ErrNotFound`); `strconv.Atoi` on relation-state keys is modelled
as `String.toInt?`; `mgoutils.UnescapeKey` (an external helper) is modelled
as the reverse replacement of the two escaped characters. -/

/-- The persisted unit-state document (`unitStateDoc`): the charm state map,
the uniter state string, the relation state map (string keys, as BSON
cannot key maps by int) and the storage state string.  `none` for the maps
models a missing (`nil`) BSON field, matching the `omitempty` tags. -/
structure unitStateDoc where
  state : Option (List (String × String))
  uniterState : String
  relationState : Option (List (String × String))
  storageState : String
  deriving DecidableEq, Repr

/-- The in-memory `UnitState`: each component paired with the flag recording
whether its setter ran. -/
structure UnitState where
  state : List (String × String)
  stateSet : Bool
  uniterState : String
  uniterStateSet : Bool
  relationState : List (Int × String)
  relationStateSet : Bool
  storageState : String
  storageStateSet : Bool
  deriving DecidableEq, Repr

/-- `NewUnitState`: everything unset. -/
def NewUnitState : UnitState :=
  { state := [], stateSet := false
    uniterState := "", uniterStateSet := false
    relationState := [], relationStateSet := false
    storageState := "", storageStateSet := false }

/-- `SetState` of `UnitState`. -/
def UnitState.setState (u : UnitState) (s : List (String × String)) : UnitState :=
  { u with state := s, stateSet := true }

/-- `SetUniterState` of `UnitState`. -/
def UnitState.setUniterState (u : UnitState) (s : String) : UnitState :=
  { u with uniterState := s, uniterStateSet := true }

/-- `SetRelationState` of `UnitState`. -/
def UnitState.setRelationState (u : UnitState) (s : List (Int × String)) :
    UnitState :=
  { u with relationState := s, relationStateSet := true }

/-- `SetStorageState` of `UnitState`. -/
def UnitState.setStorageState (u : UnitState) (s : String) : UnitState :=
  { u with storageState := s, storageStateSet := true }

/-- `unitStateDoc.relationData`: translate the string-keyed relation state
to int keys; any unparsable key fails the whole translation. -/
def relationData : List (String × String) → Option (List (Int × String))
  | [] => some []
  | (k, v) :: t =>
    match k.toInt?, relationData t with
    | some ki, some rest => some ((ki, v) :: rest)
    | _, _ => none

/-- `mgoutils.UnescapeKey`, modelled as reversing the two character
escapes used by the mongo key escaper. -/
def unescapeKey (s : String) : String :=
  (s.replace "．" ".").replace "＄" "$"

/-- Errors surfaced by `Unit.State`: the not-found error returned for a unit
that is no longer alive, and the traced parse error from `relationData`. -/
inductive UnitStateError
  | notFound
  | badRelationKey
  deriving DecidableEq, Repr

/-- `Unit.State` (state/unit_state.go lines 245-282): a unit whose life is
not Alive yields a not-found error before the state document is consulted;
otherwise the document is read (absent document: empty state, no error), the
relation state is translated, the charm state keys are unescaped, and the
uniter and storage state are always set. -/
def unitStateOf (life : Life) (doc : Option unitStateDoc) :
    Except UnitStateError UnitState :=
  let us := NewUnitState
  if life ≠ Life.alive then .error .notFound
  else
    match doc with
    | none => .ok us
    | some d =>
      let step1 :=
        match d.relationState with
        | none => some us
        | some rs =>
          match relationData rs with
          | none => none
          | some rState => some (us.setRelationState rState)
      match step1 with
      | none => .error .badRelationKey
      | some us1 =>
        let us2 :=
          match d.state with
          | none => us1
          | some st =>
            us1.setState (st.map fun (kv : String × String) => (unescapeKey kv.1, kv.2))
        .ok ((us2.setUniterState d.uniterState).setStorageState d.storageState)

/-!
Shared lemmas about the resolver model: the shape of the hooks each ladder
stage can produce, and preservation facts about the broken-emitted markers.
-/

theorem departedHook_shape {id : Nat} {rel : Relationer}
    {rm : List (String × Int)} {rb : Bool} {n : String} {h : HookInfo}
    (hs : departedHook id rel rm rb n = some h) :
    h.kind = HookKind.departed ∧ h.relationId = id ∧ h.remoteUnit = n := by
  unfold departedHook at hs
  split at hs
  · exact absurd hs (by simp)
  · split at hs
    · cases hs
      exact ⟨rfl, rfl, rfl⟩
    · exact absurd hs (by simp)

theorem joinedHook_shape {id : Nat} {rel : Relationer}
    {rm : List (String × Int)} {n : String} {h : HookInfo}
    (hs : joinedHook id rel rm n = some h) :
    h.kind = HookKind.joined ∧ h.relationId = id ∧ h.remoteUnit = n := by
  unfold joinedHook at hs
  split at hs
  · exact absurd hs (by simp)
  · split at hs
    · exact absurd hs (by simp)
    · cases hs
      exact ⟨rfl, rfl, rfl⟩

theorem changedHook_shape {id : Nat} {rel : Relationer}
    {rm : List (String × Int)} {n : String} {h : HookInfo}
    (hs : changedHook id rel rm n = some h) :
    h.kind = HookKind.changed ∧ h.relationId = id ∧ h.remoteUnit = n := by
  unfold changedHook at hs
  split at hs
  · split at hs
    · cases hs
      exact ⟨rfl, rfl, rfl⟩
    · exact absurd hs (by simp)
  · exact absurd hs (by simp)

theorem appChangedHook_shape {id : Nat} {rel : Relationer}
    {ra : List (String × Int)} {a : String} {h : HookInfo}
    (hs : appChangedHook id rel ra a = some h) :
    h.kind = HookKind.changed ∧ h.relationId = id := by
  unfold appChangedHook at hs
  split at hs
  · exact absurd hs (by simp)
  · split at hs
    · cases hs
      exact ⟨rfl, rfl⟩
    · exact absurd hs (by simp)

theorem firstSome_departed_shape {id : Nat} {rel : Relationer}
    {rm : List (String × Int)} {rb : Bool} {names : List String} {h : HookInfo}
    (hs : firstSome (departedHook id rel rm rb) names = some h) :
    h.kind = HookKind.departed ∧ h.relationId = id := by
  obtain ⟨n, _, hn⟩ := firstSome_some_exists hs
  exact ⟨(departedHook_shape hn).1, (departedHook_shape hn).2.1⟩

theorem firstSome_joined_shape {id : Nat} {rel : Relationer}
    {rm : List (String × Int)} {names : List String} {h : HookInfo}
    (hs : firstSome (joinedHook id rel rm) names = some h) :
    h.kind = HookKind.joined ∧ h.relationId = id := by
  obtain ⟨n, _, hn⟩ := firstSome_some_exists hs
  exact ⟨(joinedHook_shape hn).1, (joinedHook_shape hn).2.1⟩

theorem firstSome_changed_shape {id : Nat} {rel : Relationer}
    {rm : List (String × Int)} {names : List String} {h : HookInfo}
    (hs : firstSome (changedHook id rel rm) names = some h) :
    h.kind = HookKind.changed ∧ h.relationId = id := by
  obtain ⟨n, _, hn⟩ := firstSome_some_exists hs
  exact ⟨(changedHook_shape hn).1, (changedHook_shape hn).2.1⟩

theorem firstSome_appChanged_shape {id : Nat} {rel : Relationer}
    {ra : List (String × Int)} {names : List String} {h : HookInfo}
    (hs : firstSome (appChangedHook id rel ra) names = some h) :
    h.kind = HookKind.changed ∧ h.relationId = id := by
  obtain ⟨a, _, ha⟩ := firstSome_some_exists hs
  exact appChangedHook_shape ha

theorem ladder_relationId {id : Nat} {rel : Relationer} {rm : List (String × Int)}
    {rb : Bool} {ra : List (String × Int)} {h : HookInfo}
    (hs : ladder id rel rm rb ra = some h) : h.relationId = id := by
  unfold ladder at hs
  split at hs
  · cases hs
    exact (firstSome_departed_shape (by assumption)).2
  · split at hs
    · split at hs
      · cases hs
        rfl
      · exact absurd hs (by simp)
    · split at hs
      · cases hs
        exact (firstSome_joined_shape (by assumption)).2
      · split at hs
        · cases hs
          exact (firstSome_changed_shape (by assumption)).2
        · exact (firstSome_appChanged_shape hs).2

theorem nextHookForRelation_relationId {id : Nat} {rel : Relationer}
    {snap? : Option RelationSnapshot} {h : HookInfo}
    (hs : nextHookForRelation id rel snap? = some h) : h.relationId = id := by
  unfold nextHookForRelation at hs
  split at hs
  · exact absurd hs (by simp)
  · split at hs
    · cases hs
      rfl
    · exact ladder_relationId hs

theorem sync_broken_eq (ctrl : Nat → Option RelationRecord) (t : Tracker)
    (remote : Snapshot) : ((synchronizeScopes ctrl t remote).1).broken = t.broken := by
  simp [synchronizeScopes]

theorem commit_broken_sub {t : Tracker} {hi : HookInfo} {r : Nat}
    (h : r ∈ t.broken) : r ∈ (commitHook t hi).broken := by
  unfold commitHook
  split
  · exact List.mem_cons_of_mem _ h
  · exact h

theorem wipe_broken_eq (t : Tracker) : (removeAllDisk t).broken = t.broken := by
  simp [removeAllDisk]

theorem step_broken_sub {ctrl : Nat → Option RelationRecord} {t t' : Tracker}
    {r : Nat} (hstep : AgentStep ctrl t t') (h : r ∈ t.broken) : r ∈ t'.broken := by
  cases hstep with
  | sync remote => rw [sync_broken_eq]; exact h
  | commit hi => exact commit_broken_sub h
  | wipe => rw [wipe_broken_eq]; exact h

theorem reachable_broken_sub {ctrl : Nat → Option RelationRecord} {t t' : Tracker}
    {r : Nat} (hr : ReachableFrom ctrl t t') (h : r ∈ t.broken) : r ∈ t'.broken := by
  induction hr with
  | refl => exact h
  | tail _ hstep ih => exact step_broken_sub hstep ih

theorem relationHookStep_some {t : Tracker} {remote : Snapshot} {id : Nat}
    {h : HookInfo} (hs : relationHookStep t remote id = some h) :
    h.relationId = id ∧ id ∉ t.broken := by
  unfold relationHookStep at hs
  split at hs
  · exact absurd hs (by simp)
  · split at hs
    · exact absurd hs (by simp)
    · exact ⟨nextHookForRelation_relationId hs, by assumption⟩

theorem nextOp_no_hook_of_broken {ctrl : Nat → Option RelationRecord}
    {t : Tracker} {r : Nat} (hb : r ∈ t.broken) (remote : Snapshot)
    {h : HookInfo} (hs : (nextOp ctrl t remote).op = some h) : h.relationId ≠ r := by
  unfold nextOp at hs
  simp only at hs
  obtain ⟨id, _, hid⟩ := firstSome_some_exists hs
  obtain ⟨hrel, hnb⟩ := relationHookStep_some hid
  rw [hrel]
  intro hcon
  subst hcon
  rw [sync_broken_eq] at hnb
  exact hnb hb

theorem nextOp_single (ctrl : Nat → Option RelationRecord) (u : String)
    (p : Option String) (id : Nat) (rel : Relationer) (ul : Life)
    (snap : RelationSnapshot) :
    (nextOp ctrl ⟨u, p, [(id, rel)], []⟩ ⟨ul, [(id, snap)]⟩).op =
      nextHookForRelation id
        { rel with life := snap.life, suspended := snap.suspended } (some snap) := by
  cases hX : nextHookForRelation id
      { rel with life := snap.life, suspended := snap.suspended } (some snap) with
  | some h =>
    simp [nextOp, synchronizeScopes, loopIds, relationHookStep, alook, firstSome,
          sortNats, insortNat, dedupNat, updateRelationer, List.filter, hX]
  | none =>
    simp [nextOp, synchronizeScopes, loopIds, relationHookStep, alook, firstSome,
          sortNats, insortNat, dedupNat, updateRelationer, List.filter, hX]

/-!
Concrete states used by the witnesses and counterexamples, mirroring the
fixtures of the repository's test suite (`wordpress/0`, `nrpe/0`, relation
ids 1 and 2). -/

/-- Controller directory of the single-relation fixtures: relation 1 is the
non-implicit `mysql` relation. -/
def ctrlW : Nat → Option RelationRecord := fun id =>
  if id = 1 then some { isImplicit := false, remoteApp := "mysql" } else none

/-- A relationer for relation 1 right after the joined and changed hooks for
`wordpress/0` were committed at change version 1. -/
def relJoinedChangedW : Relationer :=
  { isImplicit := false, remoteApp := "mysql", life := .alive, suspended := false,
    created := true, inScope := true, members := [("wordpress/0", 1)],
    appMembers := [], changedPending := "",
    files := [("wordpress/0", { changeVersion := 1, changedPending := false })],
    dirExists := true }

/-- A relationer for relation 1 right after the joined hook for
`wordpress/0` was committed (changed still pending). -/
def relPendingW : Relationer :=
  { relJoinedChangedW with
      changedPending := "wordpress/0"
      files := [("wordpress/0", { changeVersion := 1, changedPending := true })] }

/-- A relationer for relation 1 after the departed hook was committed:
no members, state directory still present. -/
def relDepartedW : Relationer :=
  { relJoinedChangedW with members := [], files := [] }

/-- A second, still healthy relation (id 2) used to show that a broken
relation stays silent while others still produce hooks. -/
def relOtherW : Relationer :=
  { isImplicit := false, remoteApp := "ntp", life := .alive, suspended := false,
    created := true, inScope := true, members := [], appMembers := [],
    changedPending := "", files := [], dirExists := true }

/-- Tracker holding the departed relation 1 and the healthy relation 2. -/
def tTwoRelW : Tracker :=
  { unitName := "wordpress/0", principal := none,
    active := [(1, relDepartedW), (2, relOtherW)], broken := [] }

/-- The broken hook for relation 1. -/
def hiBrokenW : HookInfo :=
  { kind := .broken, relationId := 1, remoteUnit := "", remoteApp := "mysql",
    changeVersion := 0 }

/-- A snapshot in which relation 1 claims to be Alive again with a member,
and relation 2 is Alive with a fresh member `ntp/0`. -/
def snapReviveW : Snapshot :=
  { life := .alive,
    relations :=
      [(1, { life := .alive, suspended := false, members := [("wordpress/0", 5)],
             applicationMembers := [] }),
       (2, { life := .alive, suspended := false, members := [("ntp/0", 1)],
             applicationMembers := [] })] }

/-- The hook the two-relation fixture produces after relation 1 was broken:
a joined for relation 2. -/
def joinedOtherW : HookInfo :=
  { kind := .joined, relationId := 2, remoteUnit := "ntp/0", remoteApp := "ntp",
    changeVersion := 1 }

/-- C1: once `relation-broken` has been committed for a relation id, the
relation's state files are gone and the relationer is dropped from the
tracker, and from then on no `NextOp` invocation — over any reachable later
tracker state (further scope synchronizations, hook commits for other
relations, even an external wipe of the state directory) and for any remote
snapshot — emits any hook carrying that relation id; so `relation-broken`
is emitted at most once over the unit's lifetime. -/
theorem relation_broken_is_terminal
    (ctrl : Nat → Option RelationRecord) (t : Tracker) (hi : HookInfo)
    (hkind : hi.kind = HookKind.broken) :
    (∀ m, stateFile (commitHook t hi) hi.relationId m = none) ∧
    alook (commitHook t hi).active hi.relationId = none ∧
    (∀ t2, ReachableFrom ctrl (commitHook t hi) t2 →
      ∀ (remote : Snapshot) (h : HookInfo),
        (nextOp ctrl t2 remote).op = some h → h.relationId ≠ hi.relationId) := by
  have hcommit : commitHook t hi =
      { t with active := adel t.active hi.relationId,
               broken := hi.relationId :: t.broken } := by
    unfold commitHook
    rw [if_pos hkind]
  have hb : hi.relationId ∈ (commitHook t hi).broken := by
    rw [hcommit]
    exact List.mem_cons_self _ _
  refine ⟨?_, ?_, ?_⟩
  · intro m
    rw [hcommit]
    unfold stateFile
    simp [alook_adel_self]
  · rw [hcommit]
    exact alook_adel_self _ _
  · intro t2 hreach remote h hs
    exact nextOp_no_hook_of_broken (reachable_broken_sub hreach hb) remote hs

/-- Witness for C1 at the two-relation fixture: committing the broken hook
for relation 1 leaves its file and tracker entry gone, and the next
resolver pass over a snapshot that even claims relation 1 is Alive again
with members only emits relation 2's joined hook, whose relation id is not
1. -/
theorem relation_broken_is_terminal_witness :
    stateFile (commitHook tTwoRelW hiBrokenW) 1 "wordpress/0" = none ∧
    alook (commitHook tTwoRelW hiBrokenW).active 1 = none ∧
    (nextOp ctrlW (commitHook tTwoRelW hiBrokenW) snapReviveW).op =
      some joinedOtherW ∧
    joinedOtherW.relationId ≠ 1 :=
  ⟨(relation_broken_is_terminal ctrlW tTwoRelW hiBrokenW rfl).1 "wordpress/0",
   (relation_broken_is_terminal ctrlW tTwoRelW hiBrokenW rfl).2.1,
   by decide,
   (relation_broken_is_terminal ctrlW tTwoRelW hiBrokenW rfl).2.2
     (commitHook tTwoRelW hiBrokenW) Relation.ReflTransGen.refl snapReviveW
     joinedOtherW (by decide)⟩

theorem ladder_of_departed_some {id : Nat} {rel : Relationer}
    {rm : List (String × Int)} {rb : Bool} {ra : List (String × Int)} {h : HookInfo}
    (hs : firstSome (departedHook id rel rm rb)
      (unionNames (rel.members.map Prod.fst) (rm.map Prod.fst)) = some h) :
    ladder id rel rm rb ra = some h := by
  simp [ladder, hs]

theorem ladder_to_joined {id : Nat} {rel : Relationer} {rm : List (String × Int)}
    {ra : List (String × Int)} {h : HookInfo}
    (hdep : firstSome (departedHook id rel rm false)
      (unionNames (rel.members.map Prod.fst) (rm.map Prod.fst)) = none)
    (hj : firstSome (joinedHook id rel rm)
      (unionNames (rel.members.map Prod.fst) (rm.map Prod.fst)) = some h) :
    ladder id rel rm false ra = some h := by
  simp [ladder, hdep, hj]

theorem ladder_to_changed {id : Nat} {rel : Relationer} {rm : List (String × Int)}
    {ra : List (String × Int)} {h : HookInfo}
    (hdep : firstSome (departedHook id rel rm false)
      (unionNames (rel.members.map Prod.fst) (rm.map Prod.fst)) = none)
    (hj : firstSome (joinedHook id rel rm)
      (unionNames (rel.members.map Prod.fst) (rm.map Prod.fst)) = none)
    (hc : firstSome (changedHook id rel rm)
      (unionNames (rel.members.map Prod.fst) (rm.map Prod.fst)) = some h) :
    ladder id rel rm false ra = some h := by
  simp [ladder, hdep, hj, hc]

theorem ladder_to_broken {id : Nat} {rel : Relationer} {rm : List (String × Int)}
    {ra : List (String × Int)}
    (hdep : firstSome (departedHook id rel rm true)
      (unionNames (rel.members.map Prod.fst) (rm.map Prod.fst)) = none)
    (hdir : rel.dirExists = true) :
    ladder id rel rm true ra = some (brokenHookInfo id rel) := by
  simp [ladder, hdep, hdir]

/-!
C2.  The claim asserts the strict ladder priority broken, departed, joined,
changed with the first match winning, so that a member gone from the remote
members receives `relation-departed` in preference to `relation-changed`
even while `changedPending` is set.  The code emits the pending
`relation-changed` first: in `TestHookRelationChanged` the first resolver
pass after the joined-commit runs against a snapshot with no members at all
and still yields `relation-changed` for `wordpress/0`.
-/

/-- Tracker holding relation 1 right after the joined-commit for
`wordpress/0` (changed pending). -/
def tPendingW : Tracker :=
  { unitName := "wordpress/0", principal := none, active := [(1, relPendingW)],
    broken := [] }

/-- Per-relation snapshot that is Alive with no members. -/
def relSnapEmptyW : RelationSnapshot :=
  { life := .alive, suspended := false, members := [], applicationMembers := [] }

/-- Snapshot in which relation 1 is Alive with no members. -/
def snapEmptyW : Snapshot :=
  { life := .alive, relations := [(1, relSnapEmptyW)] }

/-- The pending changed hook the resolver emits at that state. -/
def changedPendingHookW : HookInfo :=
  { kind := .changed, relationId := 1, remoteUnit := "wordpress/0",
    remoteApp := "wordpress", changeVersion := 1 }

/-- Counterexample to C2: at the post-joined state, `wordpress/0` is a
local member of relation 1 and is absent from the remote members, yet the
resolver emits `relation-changed` (the pending changed), not
`relation-departed`. -/
theorem departed_priority_counterexample :
    alook relPendingW.members "wordpress/0" = some 1 ∧
    alook (remoteMembersOf (alook snapEmptyW.relations 1)) "wordpress/0" = none ∧
    relPendingW.changedPending = "wordpress/0" ∧
    (nextOp ctrlW tPendingW snapEmptyW).op = some changedPendingHookW ∧
    changedPendingHookW.kind ≠ HookKind.departed := by
  decide

/-- C2 as amended: the ladder is evaluated with the pending
`relation-changed` first — when `changedPending` is set the resolver emits
that changed hook before any departed check — and only for relations with
no pending changed does the departed check precede the joined/changed
stages, so that a local member absent from the remote members then yields a
`relation-departed` hook. -/
theorem pending_changed_precedes_departed
    (ctrl : Nat → Option RelationRecord) (u : String) (p : Option String)
    (id : Nat) (rel : Relationer) (ul : Life) (snap : RelationSnapshot)
    (himp : rel.isImplicit = false) :
    (rel.changedPending ≠ "" →
      (nextOp ctrl ⟨u, p, [(id, rel)], []⟩ ⟨ul, [(id, snap)]⟩).op =
        some (pendingHook id rel snap.members)) ∧
    (rel.changedPending = "" →
      ∀ m, m ∈ rel.members.map Prod.fst → alook snap.members m = none →
        ∃ h, (nextOp ctrl ⟨u, p, [(id, rel)], []⟩ ⟨ul, [(id, snap)]⟩).op = some h ∧
          h.kind = HookKind.departed) := by
  constructor
  · intro hpend
    rw [nextOp_single]
    unfold nextHookForRelation
    simp only [himp]
    rw [if_neg (by simp)]
    rw [if_pos (by simpa using hpend)]
    simp [pendingHook, pendingChangeVersion, remoteMembersOf]
  · intro hpend m hmem hnone
    rw [nextOp_single]
    unfold nextHookForRelation
    rw [if_neg (by simp [himp])]
    rw [if_neg (by simpa using hpend)]
    have hm : (departedHook id
        { rel with life := snap.life, suspended := snap.suspended }
        (remoteMembersOf (some snap)) (remoteBrokenOf (some snap)) m).isSome := by
      have hsome : (alook rel.members m).isSome := alook_isSome_of_mem_fst hmem
      unfold departedHook
      cases hL : alook rel.members m with
      | none => rw [hL] at hsome; simp at hsome
      | some lv =>
        simp only [hL]
        rw [if_pos]
        · simp
        · simp [remoteMembersOf, hnone]
    have hmem' : m ∈ unionNames
        (({ rel with life := snap.life, suspended := snap.suspended } :
          Relationer).members.map Prod.fst)
        ((remoteMembersOf (some snap)).map Prod.fst) := by
      exact mem_unionNames.mpr (Or.inl hmem)
    have hfs := firstSome_isSome_of_exists hmem' hm
    cases hfs2 : firstSome (departedHook id
        { rel with life := snap.life, suspended := snap.suspended }
        (remoteMembersOf (some snap)) (remoteBrokenOf (some snap)))
        (unionNames
          (({ rel with life := snap.life, suspended := snap.suspended } :
            Relationer).members.map Prod.fst)
          ((remoteMembersOf (some snap)).map Prod.fst)) with
    | none => rw [hfs2] at hfs; simp at hfs
    | some h =>
      refine ⟨h, ?_, (firstSome_departed_shape hfs2).1⟩
      exact ladder_of_departed_some hfs2

/-- Witness for C2's amended statement at the test fixture: with the
pending changed set the resolver emits the changed hook, and at the
post-changed state a snapshot without `wordpress/0` yields a departed
hook. -/
theorem pending_changed_precedes_departed_witness :
    (nextOp ctrlW tPendingW snapEmptyW).op =
      some (pendingHook 1 relPendingW relSnapEmptyW.members) ∧
    ∃ h, (nextOp ctrlW
        ⟨"wordpress/0", none, [(1, relJoinedChangedW)], []⟩ snapEmptyW).op =
      some h ∧ h.kind = HookKind.departed :=
  ⟨(pending_changed_precedes_departed ctrlW "wordpress/0" none 1 relPendingW
      Life.alive relSnapEmptyW (by decide)).1 (by decide),
   (pending_changed_precedes_departed ctrlW "wordpress/0" none 1
      relJoinedChangedW Life.alive relSnapEmptyW (by decide)).2 (by decide)
     "wordpress/0" (by decide) (by decide)⟩

/-- C3: committing hooks mutates the per-(relation, member) state files
exactly as specified — after a joined-commit for member m at version v the
file for (r, m) holds changeVersion v with the changed-pending flag set;
after the consequent changed-commit at version v' it holds changeVersion v'
with the flag clear; after a departed-commit the file is gone. -/
theorem commit_hook_state_file_mutations
    (t : Tracker) (r : Nat) (rel : Relationer) (m app : String) (v v' : Int)
    (hm : m ≠ "") (h : alook t.active r = some rel) :
    stateFile (commitHook t ⟨.joined, r, m, app, v⟩) r m =
      some { changeVersion := v, changedPending := true } ∧
    stateFile (commitHook (commitHook t ⟨.joined, r, m, app, v⟩)
        ⟨.changed, r, m, app, v'⟩) r m =
      some { changeVersion := v', changedPending := false } ∧
    stateFile (commitHook (commitHook (commitHook t ⟨.joined, r, m, app, v⟩)
        ⟨.changed, r, m, app, v'⟩) ⟨.departed, r, m, app, v'⟩) r m = none := by
  have h1 : alook (commitHook t ⟨.joined, r, m, app, v⟩).active r =
      some (commitRelationer ⟨.joined, r, m, app, v⟩ rel) := by
    unfold commitHook
    rw [if_neg (by simp)]
    exact alook_aupdate_self _ h
  have h2 : alook (commitHook (commitHook t ⟨.joined, r, m, app, v⟩)
      ⟨.changed, r, m, app, v'⟩).active r =
      some (commitRelationer ⟨.changed, r, m, app, v'⟩
        (commitRelationer ⟨.joined, r, m, app, v⟩ rel)) := by
    unfold commitHook
    rw [if_neg (by simp)]
    exact alook_aupdate_self _ h1
  have h3 : alook (commitHook (commitHook (commitHook t ⟨.joined, r, m, app, v⟩)
      ⟨.changed, r, m, app, v'⟩) ⟨.departed, r, m, app, v'⟩).active r =
      some (commitRelationer ⟨.departed, r, m, app, v'⟩
        (commitRelationer ⟨.changed, r, m, app, v'⟩
          (commitRelationer ⟨.joined, r, m, app, v⟩ rel))) := by
    unfold commitHook
    rw [if_neg (by simp)]
    exact alook_aupdate_self _ h2
  refine ⟨?_, ?_, ?_⟩
  · unfold stateFile
    rw [h1]
    simp [commitRelationer, alook_aset_self]
  · unfold stateFile
    rw [h2]
    simp [commitRelationer, hm, alook_aset_self]
  · unfold stateFile
    rw [h3]
    simp [commitRelationer, hm, alook_adel_self]

/-- A freshly joined relationer for relation 1 (no members yet). -/
def relFreshW : Relationer :=
  { isImplicit := false, remoteApp := "mysql", life := .alive, suspended := false,
    created := true, inScope := true, members := [], appMembers := [],
    changedPending := "", files := [], dirExists := true }

/-- Tracker holding only the fresh relation 1. -/
def tFreshW : Tracker :=
  { unitName := "wordpress/0", principal := none, active := [(1, relFreshW)],
    broken := [] }

/-- Witness for C3 at the fixture of `TestCommitHook`: joined at version 1,
changed at version 2, then departed for `wordpress/0` on relation 1. -/
theorem commit_hook_state_file_mutations_witness :
    stateFile (commitHook tFreshW ⟨.joined, 1, "wordpress/0", "wordpress", 1⟩)
      1 "wordpress/0" = some { changeVersion := 1, changedPending := true } ∧
    stateFile (commitHook
        (commitHook tFreshW ⟨.joined, 1, "wordpress/0", "wordpress", 1⟩)
        ⟨.changed, 1, "wordpress/0", "wordpress", 2⟩) 1 "wordpress/0" =
      some { changeVersion := 2, changedPending := false } ∧
    stateFile (commitHook (commitHook
        (commitHook tFreshW ⟨.joined, 1, "wordpress/0", "wordpress", 1⟩)
        ⟨.changed, 1, "wordpress/0", "wordpress", 2⟩)
        ⟨.departed, 1, "wordpress/0", "wordpress", 2⟩) 1 "wordpress/0" = none :=
  commit_hook_state_file_mutations tFreshW 1 relFreshW "wordpress/0" "wordpress"
    1 2 (by decide) (by decide)

theorem changedHook_some_inv {id : Nat} {rel : Relationer}
    {rm : List (String × Int)} {n : String} {h : HookInfo}
    (hs : changedHook id rel rm n = some h) :
    ∃ lv rv, alook rel.members n = some lv ∧ alook rm n = some rv ∧ lv ≠ rv ∧
      h = { kind := .changed, relationId := id, remoteUnit := n,
            remoteApp := unitApp n, changeVersion := rv } := by
  unfold changedHook at hs
  split at hs
  · split at hs
    · cases hs
      rename_i lv rv hl hr hne
      exact ⟨lv, rv, hl, hr, hne, rfl⟩
    · exact absurd hs (by simp)
  · exact absurd hs (by simp)

/-- C4: a `relation-changed` hook for a member fires whenever the member's
changed is pending, or — with no hook of higher ladder priority available
(no pending changed, relation Alive and not suspended, no member departed
or newly joined) — whenever the member's remote change version differs
from the locally recorded one; any inequality fires, including a remote
version strictly smaller than the local one. -/
theorem relation_changed_on_pending_or_version_skew
    (ctrl : Nat → Option RelationRecord) (u : String) (p : Option String)
    (id : Nat) (rel : Relationer) (ul : Life) (snap : RelationSnapshot)
    (himp : rel.isImplicit = false) :
    (rel.changedPending ≠ "" →
      (nextOp ctrl ⟨u, p, [(id, rel)], []⟩ ⟨ul, [(id, snap)]⟩).op =
        some (pendingHook id rel snap.members)) ∧
    (rel.changedPending = "" →
      snap.life = Life.alive → snap.suspended = false →
      (∀ n, n ∈ rel.members.map Prod.fst → n ∈ snap.members.map Prod.fst) →
      (∀ n, n ∈ snap.members.map Prod.fst → n ∈ rel.members.map Prod.fst) →
      ∀ m lv rv, alook rel.members m = some lv → alook snap.members m = some rv →
        rv ≠ lv →
        ∃ n2 lv2 rv2, alook rel.members n2 = some lv2 ∧
          alook snap.members n2 = some rv2 ∧ lv2 ≠ rv2 ∧
          (nextOp ctrl ⟨u, p, [(id, rel)], []⟩ ⟨ul, [(id, snap)]⟩).op =
            some { kind := .changed, relationId := id, remoteUnit := n2,
                   remoteApp := unitApp n2, changeVersion := rv2 }) := by
  constructor
  · intro hpend
    rw [nextOp_single]
    unfold nextHookForRelation
    rw [if_neg (by simp [himp])]
    rw [if_pos (by simpa using hpend)]
    simp [pendingHook, pendingChangeVersion, remoteMembersOf]
  · intro hpend hlife hsusp hsub1 hsub2 m lv rv hl hr hne
    have hrb : remoteBrokenOf (some snap) = false := by
      simp [remoteBrokenOf, hlife, hsusp]
    have hrm : remoteMembersOf (some snap) = snap.members := rfl
    have hdep : firstSome (departedHook id
        { rel with life := snap.life, suspended := snap.suspended }
        snap.members false)
        (unionNames (rel.members.map Prod.fst) (snap.members.map Prod.fst)) =
        none := by
      rw [firstSome_eq_none_iff]
      intro n hn
      unfold departedHook
      cases hLn : alook rel.members n with
      | none => simp [hLn]
      | some lvn =>
        simp only [hLn]
        rw [if_neg]
        simp only [Bool.false_or, Bool.not_eq_true', Bool.not_eq_false]
        exact alook_isSome_of_mem_fst
          (hsub1 n (mem_fst_of_alook_isSome (by rw [hLn]; rfl)))
    have hjoin : firstSome (joinedHook id
        { rel with life := snap.life, suspended := snap.suspended } snap.members)
        (unionNames (rel.members.map Prod.fst) (snap.members.map Prod.fst)) =
        none := by
      rw [firstSome_eq_none_iff]
      intro n hn
      unfold joinedHook
      cases hRn : alook snap.members n with
      | none => simp [hRn]
      | some rvn =>
        simp only [hRn]
        rw [if_pos]
        exact alook_isSome_of_mem_fst
          (hsub2 n (mem_fst_of_alook_isSome (by rw [hRn]; rfl)))
    have hcSome : (changedHook id
        { rel with life := snap.life, suspended := snap.suspended }
        snap.members m).isSome := by
      unfold changedHook
      simp only [hl, hr]
      rw [if_pos (fun hcon => hne hcon.symm)]
      rfl
    have hmnames : m ∈ unionNames (rel.members.map Prod.fst)
        (snap.members.map Prod.fst) :=
      mem_unionNames.mpr (Or.inl (mem_fst_of_alook_isSome (by rw [hl]; rfl)))
    have hfs := firstSome_isSome_of_exists hmnames hcSome
    cases hfs2 : firstSome (changedHook id
        { rel with life := snap.life, suspended := snap.suspended } snap.members)
        (unionNames (rel.members.map Prod.fst) (snap.members.map Prod.fst)) with
    | none => rw [hfs2] at hfs; simp at hfs
    | some h =>
      obtain ⟨n2, hn2, hcn2⟩ := firstSome_some_exists hfs2
      obtain ⟨lv2, rv2, hl2, hr2, hne2, hform⟩ := changedHook_some_inv hcn2
      refine ⟨n2, lv2, rv2, hl2, hr2, hne2, ?_⟩
      rw [nextOp_single]
      unfold nextHookForRelation
      rw [if_neg (by simp [himp])]
      rw [if_neg (by simpa using hpend)]
      rw [show remoteBrokenOf (some snap) = false from hrb]
      rw [show remoteMembersOf (some snap) = snap.members from hrm]
      rw [ladder_to_changed hdep hjoin hfs2]
      rw [hform]

/-- Per-relation snapshot carrying a regressed change version 0 for
`wordpress/0` (locally recorded at version 1). -/
def relSnapRegW : RelationSnapshot :=
  { life := .alive, suspended := false, members := [("wordpress/0", 0)],
    applicationMembers := [] }

/-- Witness for C4 at the version-regression fixture of
`TestHookRelationChanged`: local version 1, remote version 0, and the
resolver emits `relation-changed` with change version 0. -/
theorem relation_changed_on_version_regression_witness :
    ∃ n lv rv, alook relJoinedChangedW.members n = some lv ∧
      alook relSnapRegW.members n = some rv ∧ lv ≠ rv ∧
      (nextOp ctrlW ⟨"wordpress/0", none, [(1, relJoinedChangedW)], []⟩
        ⟨Life.alive, [(1, relSnapRegW)]⟩).op =
        some { kind := .changed, relationId := 1, remoteUnit := n,
               remoteApp := unitApp n, changeVersion := rv } :=
  (relation_changed_on_pending_or_version_skew ctrlW "wordpress/0" none 1
      relJoinedChangedW Life.alive relSnapRegW (by decide)).2 (by decide)
    (by decide) (by decide) (by decide) (by decide) "wordpress/0" 1 0
    (by decide) (by decide) (by decide)

theorem ladder_broken_members_nil {id : Nat} {rel : Relationer}
    {rm : List (String × Int)} {rb : Bool} {ra : List (String × Int)} {h : HookInfo}
    (hs : ladder id rel rm rb ra = some h) (hkind : h.kind = HookKind.broken) :
    rel.members = [] := by
  cases rb with
  | false =>
    exfalso
    unfold ladder at hs
    split at hs
    · cases hs
      have := (firstSome_departed_shape (by assumption)).1
      rw [this] at hkind
      cases hkind
    · rw [if_neg (by simp)] at hs
      split at hs
      · cases hs
        have := (firstSome_joined_shape (by assumption)).1
        rw [this] at hkind
        cases hkind
      · split at hs
        · cases hs
          have := (firstSome_changed_shape (by assumption)).1
          rw [this] at hkind
          cases hkind
        · have := (firstSome_appChanged_shape hs).1
          rw [this] at hkind
          cases hkind
  | true =>
    unfold ladder at hs
    split at hs
    · cases hs
      exfalso
      have := (firstSome_departed_shape (by assumption)).1
      rw [this] at hkind
      cases hkind
    · rename_i hdepnone
      rw [if_pos rfl] at hs
      cases hmem : rel.members with
      | nil => rfl
      | cons nv t =>
        exfalso
        have hn0 : nv.1 ∈ unionNames (rel.members.map Prod.fst)
            (rm.map Prod.fst) := by
          refine mem_unionNames.mpr (Or.inl ?_)
          rw [hmem]
          exact List.mem_cons_self _ _
        have hnone := (firstSome_eq_none_iff _ _).mp hdepnone nv.1 hn0
        have hsome : (alook rel.members nv.1).isSome := by
          apply alook_isSome_of_mem_fst
          rw [hmem]
          exact List.mem_cons_self _ _
        unfold departedHook at hnone
        cases hL : alook rel.members nv.1 with
        | none => rw [hL] at hsome; simp at hsome
        | some lv =>
          simp only [hL, Bool.true_or, if_pos] at hnone
          cases hnone

/-- C5: while a suspended (or dying) relation still has local members, the
resolver departs them before breaking the relation — `relation-broken` can
only be the selected hook once the local member list is empty — and once
the sweep is complete a relation that is Dying, or suspended, with an empty
members map yields `relation-broken`. -/
theorem suspended_departed_sweep_then_broken
    (ctrl : Nat → Option RelationRecord) (u : String) (p : Option String)
    (id : Nat) (rel : Relationer) (ul : Life) (snap : RelationSnapshot)
    (himp : rel.isImplicit = false) :
    (∀ h, (nextOp ctrl ⟨u, p, [(id, rel)], []⟩ ⟨ul, [(id, snap)]⟩).op = some h →
      h.kind = HookKind.broken → rel.members = []) ∧
    (snap.suspended = true → rel.changedPending = "" → rel.members ≠ [] →
      ∃ h, (nextOp ctrl ⟨u, p, [(id, rel)], []⟩ ⟨ul, [(id, snap)]⟩).op = some h ∧
        h.kind = HookKind.departed) ∧
    ((snap.life = Life.dying ∨ snap.suspended = true) → snap.members = [] →
      rel.members = [] → rel.changedPending = "" → rel.dirExists = true →
      (nextOp ctrl ⟨u, p, [(id, rel)], []⟩ ⟨ul, [(id, snap)]⟩).op =
        some (brokenHookInfo id
          { rel with life := snap.life, suspended := snap.suspended })) := by
  refine ⟨?_, ?_, ?_⟩
  · intro h hs hkind
    rw [nextOp_single] at hs
    unfold nextHookForRelation at hs
    rw [if_neg (by simp [himp])] at hs
    by_cases hpend : rel.changedPending ≠ ""
    · rw [if_pos (by simpa using hpend)] at hs
      cases hs
      simp [pendingHook] at hkind
    · rw [if_neg (by simpa using hpend)] at hs
      have := ladder_broken_members_nil hs hkind
      simpa using this
  · intro hsusp hpend hmem
    rw [nextOp_single]
    unfold nextHookForRelation
    rw [if_neg (by simp [himp])]
    rw [if_neg (by simpa using hpend)]
    have hrb : remoteBrokenOf (some snap) = true := by
      simp [remoteBrokenOf, hsusp]
    obtain ⟨nv, hnv⟩ := List.exists_mem_of_ne_nil rel.members hmem
    have hn0mem : nv.1 ∈ rel.members.map Prod.fst :=
      List.mem_map_of_mem Prod.fst hnv
    have hn0 : nv.1 ∈ unionNames
        (({ rel with life := snap.life, suspended := snap.suspended } :
          Relationer).members.map Prod.fst)
        ((remoteMembersOf (some snap)).map Prod.fst) := by
      exact mem_unionNames.mpr (Or.inl (by simpa using hn0mem))
    have hdSome : (departedHook id
        { rel with life := snap.life, suspended := snap.suspended }
        (remoteMembersOf (some snap)) (remoteBrokenOf (some snap))
        nv.1).isSome := by
      have hsome : (alook rel.members nv.1).isSome :=
        alook_isSome_of_mem_fst hn0mem
      unfold departedHook
      cases hL : alook rel.members nv.1 with
      | none => rw [hL] at hsome; simp at hsome
      | some lv =>
        simp only [hL]
        rw [if_pos (by simp [hrb])]
        rfl
    have hfs := firstSome_isSome_of_exists hn0 hdSome
    cases hfs2 : firstSome (departedHook id
        { rel with life := snap.life, suspended := snap.suspended }
        (remoteMembersOf (some snap)) (remoteBrokenOf (some snap)))
        (unionNames
          (({ rel with life := snap.life, suspended := snap.suspended } :
            Relationer).members.map Prod.fst)
          ((remoteMembersOf (some snap)).map Prod.fst)) with
    | none => rw [hfs2] at hfs; simp at hfs
    | some h =>
      exact ⟨h, ladder_of_departed_some hfs2, (firstSome_departed_shape hfs2).1⟩
  · intro hlife hsm hlm hpend hdir
    rw [nextOp_single]
    unfold nextHookForRelation
    rw [if_neg (by simp [himp])]
    rw [if_neg (by simpa using hpend)]
    have hrb : remoteBrokenOf (some snap) = true := by
      rcases hlife with hcase | hcase <;> simp [remoteBrokenOf, hcase]
    rw [hrb]
    apply ladder_to_broken
    · rw [firstSome_eq_none_iff]
      intro n hn
      rw [mem_unionNames] at hn
      rcases hn with hn | hn
      · rw [show ({ rel with life := snap.life, suspended := snap.suspended } :
            Relationer).members = rel.members from rfl, hlm] at hn
        simp at hn
      · rw [show remoteMembersOf (some snap) = snap.members from rfl, hsm] at hn
        simp at hn
    · exact hdir

/-- Per-relation snapshot that is Alive but suspended, with no members. -/
def relSnapSuspW : RelationSnapshot :=
  { life := .alive, suspended := true, members := [], applicationMembers := [] }

/-- Per-relation snapshot that is Dying with no members. -/
def relSnapDyingW : RelationSnapshot :=
  { life := .dying, suspended := false, members := [], applicationMembers := [] }

/-- Witness for C5 at the fixtures of `TestHookRelationChangedSuspended`,
`TestHookRelationBrokenWhenSuspended` and `TestHookRelationBroken`: a
suspended relation with a local member departs it; after the
departed-commit the suspended snapshot with empty members yields the broken
hook, as does a Dying snapshot; and the broken hook indeed only appears
with the member list empty. -/
theorem suspended_departed_sweep_then_broken_witness :
    (∃ h, (nextOp ctrlW ⟨"wordpress/0", none, [(1, relJoinedChangedW)], []⟩
        ⟨Life.alive, [(1, relSnapSuspW)]⟩).op = some h ∧
      h.kind = HookKind.departed) ∧
    (nextOp ctrlW ⟨"wordpress/0", none, [(1, relDepartedW)], []⟩
        ⟨Life.alive, [(1, relSnapSuspW)]⟩).op =
      some (brokenHookInfo 1
        { relDepartedW with life := relSnapSuspW.life,
                            suspended := relSnapSuspW.suspended }) ∧
    (nextOp ctrlW ⟨"wordpress/0", none, [(1, relDepartedW)], []⟩
        ⟨Life.alive, [(1, relSnapDyingW)]⟩).op =
      some (brokenHookInfo 1
        { relDepartedW with life := relSnapDyingW.life,
                            suspended := relSnapDyingW.suspended }) ∧
    relDepartedW.members = [] :=
  ⟨(suspended_departed_sweep_then_broken ctrlW "wordpress/0" none 1
      relJoinedChangedW Life.alive relSnapSuspW (by decide)).2.1 (by decide)
      (by decide) (by decide),
   (suspended_departed_sweep_then_broken ctrlW "wordpress/0" none 1
      relDepartedW Life.alive relSnapSuspW (by decide)).2.2
     (Or.inr (by decide)) (by decide) (by decide) (by decide) (by decide),
   (suspended_departed_sweep_then_broken ctrlW "wordpress/0" none 1
      relDepartedW Life.alive relSnapDyingW (by decide)).2.2
     (Or.inl (by decide)) (by decide) (by decide) (by decide) (by decide),
   (suspended_departed_sweep_then_broken ctrlW "wordpress/0" none 1
      relDepartedW Life.alive relSnapDyingW (by decide)).1
     (brokenHookInfo 1
       { relDepartedW with life := relSnapDyingW.life,
                           suspended := relSnapDyingW.suspended })
     (by decide) (by decide)⟩

/-!
C6 and C7: subordinate destruction.  The fixtures mirror
`TestSubSubPrincipalRelationDyingDestroysUnit`,
`TestSubSubOtherRelationDyingNotDestroyed` and
`TestPrincipalDyingDestroysSubordinates`: unit `nrpe/0`, principal
`wordpress/0`, relation 1 to the principal application and relation 2 to
the peer subordinate `ntp`.
-/

/-- Relationer of `nrpe/0` towards its principal application `wordpress`. -/
def relSub1W : Relationer :=
  { isImplicit := false, remoteApp := "wordpress", life := .alive,
    suspended := false, created := true, inScope := true, members := [],
    appMembers := [], changedPending := "", files := [], dirExists := true }

/-- Relationer of `nrpe/0` towards the peer subordinate `ntp`. -/
def relSub2W : Relationer :=
  { isImplicit := false, remoteApp := "ntp", life := .alive, suspended := false,
    created := true, inScope := true, members := [], appMembers := [],
    changedPending := "", files := [], dirExists := true }

/-- Subordinate tracker with both sub-sub relations. -/
def tSubW : Tracker :=
  { unitName := "nrpe/0", principal := some "wordpress/0",
    active := [(1, relSub1W), (2, relSub2W)], broken := [] }

/-- Subordinate tracker with only the principal relation. -/
def tPrincipalOnlyW : Tracker :=
  { unitName := "nrpe/0", principal := some "wordpress/0",
    active := [(1, relSub1W)], broken := [] }

/-- Per-relation snapshot with the single member `nrpe/0`. -/
def relSnapNrpeW : RelationSnapshot :=
  { life := .alive, suspended := false, members := [("nrpe/0", 1)],
    applicationMembers := [] }

/-- Snapshot of `TestPrincipalDyingDestroysSubordinates`: the unit's own
life is Dying while its only relation stays Alive. -/
def snapUnitDyingW : Snapshot :=
  { life := .dying, relations := [(1, relSnapNrpeW)] }

/-- Snapshot of `TestSubSubPrincipalRelationDyingDestroysUnit`: relation 1
(whose members include the principal's unit `wordpress/0`) is Dying,
relation 2 stays Alive. -/
def snapPrincipalRelDyingW : Snapshot :=
  { life := .alive,
    relations :=
      [(1, { life := .dying, suspended := false,
             members := [("wordpress/0", 1)], applicationMembers := [] }),
       (2, { life := .alive, suspended := false, members := [("ntp/0", 1)],
             applicationMembers := [] })] }

/-- Snapshot of `TestSubSubOtherRelationDyingNotDestroyed`: only the
non-principal relation 2 is Dying. -/
def snapOtherRelDyingW : Snapshot :=
  { life := .alive,
    relations :=
      [(1, { life := .alive, suspended := false,
             members := [("wordpress/0", 1)], applicationMembers := [] }),
       (2, { life := .dying, suspended := false, members := [("ntp/0", 1)],
             applicationMembers := [] })] }

/-- Counterexample to C6's "exactly when": with every relation in the
snapshot Alive but the unit's own life Dying, the subordinate's scope
synchronization still calls `Destroy` on the unit
(`TestPrincipalDyingDestroysSubordinates`), so `Destroy` is not called
exactly when the relation to the principal has become Dying. -/
theorem destroy_exactly_on_principal_dying_counterexample :
    (synchronizeScopes ctrlW tPrincipalOnlyW snapUnitDyingW).2 = true ∧
    (∀ idSnap ∈ snapUnitDyingW.relations, idSnap.2.life ≠ Life.dying) ∧
    tPrincipalOnlyW.principal = some "wordpress/0" := by
  decide

/-- C6 as amended: during scope synchronization a subordinate (and only a
subordinate) calls `Destroy` on itself precisely when the unit's own life
is Dying or some Dying relation of the snapshot contains a member unit of
the principal's application; in particular a Dying principal relation
triggers the call even while other sub-sub relations stay Alive, and a
Dying non-principal relation alone does not. -/
theorem destroy_self_condition (ctrl : Nat → Option RelationRecord)
    (t : Tracker) (remote : Snapshot) :
    ((synchronizeScopes ctrl t remote).2 = true ↔
      ∃ pu, t.principal = some pu ∧
        (remote.life = Life.dying ∨
          ∃ id snap, (id, snap) ∈ remote.relations ∧ snap.life = Life.dying ∧
            ∃ u v, (u, v) ∈ snap.members ∧ unitApp u = unitApp pu)) ∧
    (synchronizeScopes ctrlW tSubW snapPrincipalRelDyingW).2 = true ∧
    (synchronizeScopes ctrlW tSubW snapOtherRelDyingW).2 = false := by
  refine ⟨?_, by decide, by decide⟩
  unfold synchronizeScopes
  cases hp : t.principal with
  | none => simp
  | some pu =>
    simp only [hp, Option.some.injEq]
    constructor
    · intro hcase
      refine ⟨pu, rfl, ?_⟩
      rcases Bool.or_eq_true_iff.mp hcase with hd | hd
      · exact Or.inl (by simpa using hd)
      · refine Or.inr ?_
        unfold principalRelationDying at hd
        obtain ⟨idSnap, hmem, hpred⟩ := List.any_eq_true.mp hd
        rcases Bool.and_eq_true_iff.mp hpred with ⟨hlife, hany⟩
        obtain ⟨uv, humem, hupred⟩ := List.any_eq_true.mp hany
        exact ⟨idSnap.1, idSnap.2, hmem, by simpa using hlife, uv.1, uv.2,
          humem, by simpa using hupred⟩
    · rintro ⟨pu', hpu', hcase⟩
      cases hpu'
      rcases hcase with hd | ⟨id, snap, hmem, hlife, u, v, humem, happ⟩
      · simp [hd]
      · refine Bool.or_eq_true_iff.mpr (Or.inr ?_)
        unfold principalRelationDying
        refine List.any_eq_true.mpr ⟨(id, snap), hmem, ?_⟩
        refine Bool.and_eq_true_iff.mpr ⟨by simpa using hlife, ?_⟩
        exact List.any_eq_true.mpr ⟨(u, v), humem, by simpa using happ⟩

/-- Counterexample to C7: `DestroyAllSubordinates` is invoked for a Dying
unit that is itself a subordinate (it has a principal), so the invocation
is not conditional on the unit being a principal
(`TestPrincipalDyingDestroysSubordinates`, whose unit `nrpe/0` has
principal `wordpress/0`). -/
theorem destroy_all_subordinates_principal_counterexample :
    (nextOp ctrlW tPrincipalOnlyW snapUnitDyingW).destroyAllSubordinates = true ∧
    tPrincipalOnlyW.principal ≠ none := by
  decide

/-- C7 as amended: `DestroyAllSubordinates` is invoked exactly when the
unit's own life in the remote snapshot is Dying — for principals and
subordinates alike — and the decision is independent of the tracker state
and of the per-relation snapshots, i.e. driven by the unit's own life and
not by the life of any particular relation. -/
theorem destroy_all_subordinates_condition (ctrl : Nat → Option RelationRecord)
    (t : Tracker) (remote : Snapshot) :
    ((nextOp ctrl t remote).destroyAllSubordinates = true ↔
      remote.life = Life.dying) ∧
    (∀ t' : Tracker, (nextOp ctrl t remote).destroyAllSubordinates =
      (nextOp ctrl t' remote).destroyAllSubordinates) ∧
    (∀ rels : List (Nat × RelationSnapshot),
      (nextOp ctrl t remote).destroyAllSubordinates =
        (nextOp ctrl t { remote with relations := rels }).destroyAllSubordinates) := by
  refine ⟨by simp [nextOp], fun t' => by simp [nextOp], fun rels => by simp [nextOp]⟩

theorem alook_map_snd {κ α β : Type} [DecidableEq κ] (l : List (κ × α))
    (f : κ → α → β) (k : κ) :
    alook (l.map fun kv => (kv.1, f kv.1 kv.2)) k = (alook l k).map (f k) := by
  induction l with
  | nil => simp [alook]
  | cons kv t ih =>
    obtain ⟨k', v'⟩ := kv
    by_cases hk : k' = k
    · subst hk
      simp [alook]
    · simp [alook, hk, ih]

theorem alook_append_of_isSome {κ α : Type} [DecidableEq κ]
    {l1 : List (κ × α)} (l2 : List (κ × α)) {k : κ} {v : α}
    (h : alook l1 k = some v) : alook (l1 ++ l2) k = some v := by
  induction l1 with
  | nil => simp [alook] at h
  | cons kv t ih =>
    obtain ⟨k', v'⟩ := kv
    by_cases hk : k' = k
    · subst hk
      simp [alook] at h ⊢
      exact h
    · rw [alook, if_neg hk] at h
      rw [List.cons_append, alook, if_neg hk]
      exact ih h

theorem alook_append_of_none {κ α : Type} [DecidableEq κ]
    {l1 : List (κ × α)} (l2 : List (κ × α)) {k : κ}
    (h : alook l1 k = none) : alook (l1 ++ l2) k = alook l2 k := by
  induction l1 with
  | nil => simp [alook]
  | cons kv t ih =>
    obtain ⟨k', v'⟩ := kv
    by_cases hk : k' = k
    · subst hk
      simp [alook] at h
    · rw [alook, if_neg hk] at h
      rw [List.cons_append, alook, if_neg hk]
      exact ih h

theorem alook_sync_active {ctrl : Nat → Option RelationRecord} {t : Tracker}
    {remote : Snapshot} {id : Nat} {rel : Relationer}
    (h : alook t.active id = some rel) :
    alook ((synchronizeScopes ctrl t remote).1).active id =
      some (updateRelationer rel (alook remote.relations id)) := by
  unfold synchronizeScopes
  simp only
  apply alook_append_of_isSome
  have h1 := alook_map_snd t.active
    (fun k v => updateRelationer v (alook remote.relations k)) id
  rw [h] at h1
  exact h1

theorem sync_new_created {ctrl : Nat → Option RelationRecord} {t : Tracker}
    {remote : Snapshot} {id : Nat} {rel' : Relationer}
    (hnone : alook t.active id = none)
    (h : alook ((synchronizeScopes ctrl t remote).1).active id = some rel') :
    rel'.created = true := by
  unfold synchronizeScopes at h
  simp only at h
  rw [alook_append_of_none] at h
  · have hmem := alook_eq_some_mem h
    rw [List.mem_filterMap] at hmem
    obtain ⟨id0, hid0, heq⟩ := hmem
    split at heq
    · split at heq
      · cases heq
        rfl
      · cases heq
    · cases heq
  · have h1 := alook_map_snd t.active
      (fun k v => updateRelationer v (alook remote.relations k)) id
    rw [hnone] at h1
    exact h1

theorem updateRelationer_isImplicit (rel : Relationer)
    (s : Option RelationSnapshot) :
    (updateRelationer rel s).isImplicit = rel.isImplicit := by
  cases s <;> rfl

theorem updateRelationer_created (rel : Relationer)
    (s : Option RelationSnapshot) :
    (updateRelationer rel s).created = rel.created := by
  cases s <;> rfl

theorem updateRelationer_inScope (rel : Relationer)
    (s : Option RelationSnapshot) :
    (updateRelationer rel s).inScope = rel.inScope := by
  cases s <;> rfl

theorem updateRelationer_remoteApp (rel : Relationer)
    (s : Option RelationSnapshot) :
    (updateRelationer rel s).remoteApp = rel.remoteApp := by
  cases s <;> rfl

/-- C8: given `local.installed = true`, the CreatedRelationResolver emits a
`relation-created` hook carrying the relation id and the tracker's remote
application for the first snapshot relation id (ascending order) that is
tracked and neither implicit, nor already recorded as created, nor in
scope; and when every snapshot relation is implicit, created, or in scope —
in particular when it was already in scope at tracker initialization, so
that `RelationCreated` answers true — it returns `ErrNoOperation`. -/
theorem created_relation_resolver_next_op (ctrl : Nat → Option RelationRecord)
    (t : Tracker) (remote : Snapshot) :
    (∀ r rel, alook t.active r = some rel →
      rel.isImplicit = false → rel.created = false → rel.inScope = false →
      r ∈ remote.relations.map Prod.fst →
      (∀ id ∈ remote.relations.map Prod.fst, id < r →
        (alook t.active id).all
          (fun rel' => rel'.isImplicit || rel'.created || rel'.inScope) = true) →
      createdNextOp ctrl true t remote =
        some { kind := .created, relationId := r, remoteUnit := "",
               remoteApp := rel.remoteApp, changeVersion := 0 }) ∧
    ((∀ id ∈ remote.relations.map Prod.fst,
        (alook t.active id).all
          (fun rel' => rel'.isImplicit || rel'.created || rel'.inScope) = true) →
      createdNextOp ctrl true t remote = none) := by
  constructor
  · intro r rel hrel himp hcre hsco hrmem hblocked
    unfold createdNextOp
    rw [if_neg (by simp)]
    apply firstSome_sorted_first (a := r) (pairwise_sortNats _)
      (mem_sortNats.mpr hrmem)
    · intro x hx hxr
      have hxmem := mem_sortNats.mp hx
      have hball := hblocked x hxmem hxr
      cases hax : alook t.active x with
      | none =>
        cases hax2 : alook ((synchronizeScopes ctrl t remote).1).active x with
        | none => simp [hax2]
        | some relx =>
          have := sync_new_created hax hax2
          simp [hax2, this]
      | some relx =>
        rw [hax] at hball
        have hax2 := @alook_sync_active ctrl t remote x relx hax
        rw [hax2]
        simp only [Option.all] at hball
        simp [updateRelationer_isImplicit, updateRelationer_created,
              updateRelationer_inScope, hball]
    · have hax2 := @alook_sync_active ctrl t remote r rel hrel
      rw [hax2]
      simp [updateRelationer_isImplicit, updateRelationer_created,
            updateRelationer_inScope, updateRelationer_remoteApp,
            himp, hcre, hsco]
  · intro hall
    unfold createdNextOp
    rw [if_neg (by simp)]
    rw [firstSome_eq_none_iff]
    intro x hx
    have hxmem := mem_sortNats.mp hx
    have hball := hall x hxmem
    cases hax : alook t.active x with
    | none =>
      cases hax2 : alook ((synchronizeScopes ctrl t remote).1).active x with
      | none => simp [hax2]
      | some relx =>
        have := sync_new_created hax hax2
        simp [hax2, this]
    | some relx =>
      rw [hax] at hball
      have hax2 := @alook_sync_active ctrl t remote x relx hax
      rw [hax2]
      simp only [Option.all] at hball
      simp [updateRelationer_isImplicit, updateRelationer_created,
            updateRelationer_inScope, hball]

/-- Relationer of a relation known to the tracker but with relation-created
not yet recorded and scope not yet entered. -/
def relNotCreatedW : Relationer :=
  { isImplicit := false, remoteApp := "mysql", life := .alive, suspended := false,
    created := false, inScope := false, members := [], appMembers := [],
    changedPending := "", files := [], dirExists := false }

/-- Tracker holding only the not-yet-created relation 1. -/
def tNotCreatedW : Tracker :=
  { unitName := "wordpress/0", principal := none, active := [(1, relNotCreatedW)],
    broken := [] }

/-- Per-relation snapshot of the created-resolver fixtures: Alive with the
member `wordpress/0` at version 1. -/
def relSnapJoinW : RelationSnapshot :=
  { life := .alive, suspended := false, members := [("wordpress/0", 1)],
    applicationMembers := [("wordpress", 0)] }

/-- Snapshot with relation 1 Alive and populated. -/
def snapJoinW : Snapshot :=
  { life := .alive, relations := [(1, relSnapJoinW)] }

/-- Witness for C8 at the fixtures of the two CreatedRelationResolver tests:
a tracked relation with `RelationCreated` false and not in scope yields the
created hook for `mysql`; the same relation already created (in scope at
initialization) yields no operation. -/
theorem created_relation_resolver_next_op_witness :
    createdNextOp ctrlW true tNotCreatedW snapJoinW =
      some { kind := .created, relationId := 1, remoteUnit := "",
             remoteApp := "mysql", changeVersion := 0 } ∧
    createdNextOp ctrlW true tFreshW snapJoinW = none :=
  ⟨(created_relation_resolver_next_op ctrlW tNotCreatedW snapJoinW).1 1
      relNotCreatedW (by decide) (by decide) (by decide) (by decide) (by decide)
      (by decide),
   (created_relation_resolver_next_op ctrlW tFreshW snapJoinW).2 (by decide)⟩

theorem sync_active_implicit {ctrl : Nat → Option RelationRecord} {t : Tracker}
    {remote : Snapshot}
    (hact : ∀ idRel ∈ t.active, idRel.2.isImplicit = true)
    (hctrl : ∀ id rec, ctrl id = some rec → rec.isImplicit = true) :
    ∀ idRel ∈ ((synchronizeScopes ctrl t remote).1).active,
      idRel.2.isImplicit = true := by
  intro idRel hmem
  unfold synchronizeScopes at hmem
  simp only at hmem
  rw [List.mem_append] at hmem
  rcases hmem with hmem | hmem
  · rw [List.mem_map] at hmem
    obtain ⟨idRel0, hidRel0, heq⟩ := hmem
    cases heq
    simp only [updateRelationer_isImplicit]
    exact hact idRel0 hidRel0
  · rw [List.mem_filterMap] at hmem
    obtain ⟨id0, hid0, heq⟩ := hmem
    split at heq
    · split at heq
      · cases heq
        exact hctrl id0 _ (by assumption)
      · cases heq
    · cases heq

/-- C9: an implicit relation never generates hooks — when every tracked
relation is implicit and every relation the controller can resolve is
implicit, `NextOp` returns `ErrNoOperation` for every remote snapshot, even
snapshots whose member maps are non-empty. -/
theorem implicit_relations_never_generate_hooks
    (ctrl : Nat → Option RelationRecord) (t : Tracker) (remote : Snapshot)
    (hact : ∀ idRel ∈ t.active, idRel.2.isImplicit = true)
    (hctrl : ∀ id rec, ctrl id = some rec → rec.isImplicit = true) :
    (nextOp ctrl t remote).op = none := by
  unfold nextOp
  simp only
  rw [firstSome_eq_none_iff]
  intro id hid
  unfold relationHookStep
  split
  · rfl
  · cases hax : alook ((synchronizeScopes ctrl t remote).1).active id with
    | none => simp [hax]
    | some rel =>
      have himp := sync_active_implicit hact hctrl (id, rel)
        (alook_eq_some_mem hax)
      simp only [hax]
      unfold nextHookForRelation
      rw [if_pos himp]

/-- Controller directory answering the implicit juju-info record for
relation 1, as in `TestImplicitRelationNoHooks`. -/
def ctrlImpW : Nat → Option RelationRecord := fun id =>
  if id = 1 then some { isImplicit := true, remoteApp := "wordpress" } else none

/-- Empty tracker of the implicit-relation fixture. -/
def tEmptyW : Tracker :=
  { unitName := "wordpress/0", principal := none, active := [], broken := [] }

/-- Snapshot of `TestImplicitRelationNoHooks`: the implicit relation 1 is
Alive with a non-empty members map. -/
def snapImplicitW : Snapshot :=
  { life := .alive,
    relations := [(1, { life := .alive, suspended := false,
                        members := [("wordpress", 1)],
                        applicationMembers := [] })] }

/-- Witness for C9 at the fixture of `TestImplicitRelationNoHooks`: the
resolver returns no operation although the implicit relation has a
member. -/
theorem implicit_relations_never_generate_hooks_witness :
    (nextOp ctrlImpW tEmptyW snapImplicitW).op = none :=
  implicit_relations_never_generate_hooks ctrlImpW tEmptyW snapImplicitW
    (by decide)
    (fun id rec h => by
      unfold ctrlImpW at h
      split at h
      · cases h
        rfl
      · cases h)

/-- C10: `Unit.State` returns a not-found error whenever the unit's life is
not Alive, without consulting the stored state document (the result is the
same for every document), and for an Alive unit with no stored document it
returns the empty `UnitState` and no error. -/
theorem unit_state_not_alive_not_found (life : Life)
    (doc doc' : Option unitStateDoc) :
    (life ≠ Life.alive →
      unitStateOf life doc = .error .notFound ∧
      unitStateOf life doc = unitStateOf life doc') ∧
    unitStateOf Life.alive none = .ok NewUnitState := by
  constructor
  · intro h
    constructor <;> simp [unitStateOf, h]
  · rfl

/-- A populated state document used to show the document is not consulted
for a non-Alive unit. -/
def docW : unitStateDoc :=
  { state := some [("charm-key", "charm-value")], uniterState := "uniter-yaml",
    relationState := some [("1", "relation-yaml")], storageState := "storage-yaml" }

/-- Witness for C10: a Dying unit with a populated document yields the
not-found error, agreeing with the result for a missing document, and an
Alive unit with no document yields the empty `UnitState`. -/
theorem unit_state_not_alive_not_found_witness :
    unitStateOf Life.dying (some docW) = .error .notFound ∧
    unitStateOf Life.dying (some docW) = unitStateOf Life.dying none ∧
    unitStateOf Life.alive none = .ok NewUnitState :=
  ⟨((unit_state_not_alive_not_found Life.dying (some docW) none).1 (by decide)).1,
   ((unit_state_not_alive_not_found Life.dying (some docW) none).1 (by decide)).2,
   (unit_state_not_alive_not_found Life.dying (some docW) none).2⟩
